import Mathlib

/-!
Verification of the transaction container and RLP list-splicing code of
`src/primitives/src/transactions/mod.rs`.

The module under verification pairs a variant-specific transaction
"essence" with a signature and derives from them a canonical RLP
encoding, a length computation, a content hash, and sender recovery.
Essences and signatures are external collaborators: the container only
consumes the bytes they produce, their reported payload lengths, the
essence's type tag, and the essence's recovery capability.  We embed
them as records of those capability outputs.

Byte buffers are modelled as `List Nat` (each element a byte value),
and appending to a caller-supplied output buffer is modelled by
returning the new buffer contents.  A Rust panic is modelled by a
`Bool` flag paired with the buffer contents at the moment of the
panic.
-/

namespace Raiko

/-- Number of bytes in the minimal big-endian representation of `n`.
This is `8 - n.leading_zeros() / 8` of the Rust `usize` arithmetic in
`alloy_rlp::length_of_length`, expressed as a base-256 digit count. -/
def byteLen (n : Nat) : Nat :=
  if n = 0 then 0 else byteLen (n / 256) + 1
termination_by n
decreasing_by exact Nat.div_lt_self (Nat.pos_of_ne_zero (by assumption)) (by decide)

/-- The minimal big-endian byte representation of `n`
(`to_be_bytes` with leading zeros trimmed, as written by
`alloy_rlp::Header::encode` in its long form). -/
def beBytes (n : Nat) : List Nat :=
  if n = 0 then [] else beBytes (n / 256) ++ [n % 256]
termination_by n
decreasing_by exact Nat.div_lt_self (Nat.pos_of_ne_zero (by assumption)) (by decide)

/-- Big-endian value of a byte list (`u64::from_be_bytes` after left
padding, as read by `alloy_rlp::Header::decode` in its long form). -/
def beValue (bs : List Nat) : Nat :=
  bs.foldl (fun acc b => acc * 256 + b) 0

/-- `alloy_rlp::length_of_length`: the byte length of the RLP
length-prefix for a payload of `p` bytes. -/
def length_of_length (p : Nat) : Nat :=
  if p < 56 then 1 else 1 + byteLen p

/-- `alloy_rlp::Header`: a decoded RLP item header. -/
structure Header where
  list : Bool
  payload_length : Nat
deriving DecidableEq, Repr

/-- `alloy_rlp::Header::length`: the encoded length of the header. -/
def Header.length (h : Header) : Nat :=
  length_of_length h.payload_length

/-- `alloy_rlp::Header::encode`: the bytes the header writes to the
output buffer.  Short form is one byte `0x80/0xC0 + payload_length`;
long form is `0xB7/0xF7 + byte-count` followed by the big-endian
payload length. -/
def Header.encode (h : Header) : List Nat :=
  if h.payload_length < 56 then
    [(if h.list then 0xC0 else 0x80) + h.payload_length]
  else
    ((if h.list then 0xF7 else 0xB7) + byteLen h.payload_length) :: beBytes h.payload_length

/-- The long-form tail of `alloy_rlp::Header::decode`: read
`lenOfLen` big-endian length bytes (rejecting a truncated buffer, a
leading zero, and a non-canonical size below 56), then require the
remaining buffer to hold the declared payload. -/
def decodeLong (isList : Bool) (lenOfLen : Nat) (rest : List Nat) : Option Header :=
  if rest.length < lenOfLen then none
  else
    match rest.take lenOfLen with
    | [] => none
    | first :: _ =>
      if first = 0 then none
      else
        let p := beValue (rest.take lenOfLen)
        if p < 56 then none
        else if (rest.drop lenOfLen).length < p then none
        else some ⟨isList, p⟩

/-- `alloy_rlp::Header::decode`: dispatch on the first byte.  Bytes
`0x00..=0x7F` are single-byte strings (the buffer is not advanced, so
the byte itself is the one-byte payload); `0x80..=0xB7` short strings
(with the canonical-single-byte check); `0xB8..=0xBF` long strings;
`0xC0..=0xF7` short lists; `0xF8..` long lists.  Every decode error
(`InputTooShort`, `NonCanonicalSingleByte`, `NonCanonicalSize`,
`LeadingZero`) is `none`. -/
def Header.decode (buf : List Nat) : Option Header :=
  match buf with
  | [] => none
  | b :: rest =>
    if b ≤ 0x7F then some ⟨false, 1⟩
    else if b ≤ 0xB7 then
      let p := b - 0x80
      if p = 1 then
        match rest with
        | [] => none
        | nb :: _ =>
          if nb < 0x80 then none
          else if rest.length < p then none else some ⟨false, p⟩
      else if rest.length < p then none else some ⟨false, p⟩
    else if b ≤ 0xBF then decodeLong false (b - 0xB7) rest
    else if b ≤ 0xF7 then
      let p := b - 0xC0
      if rest.length < p then none else some ⟨true, p⟩
    else decodeLong true (b - 0xF7) rest

/- Basic facts about the big-endian representation. -/

theorem byteLen_pos {n : Nat} (h : 0 < n) : 0 < byteLen n := by
  rw [byteLen, if_neg (Nat.pos_iff_ne_zero.mp h)]
  omega

theorem beBytes_length (n : Nat) : (beBytes n).length = byteLen n := by
  induction n using Nat.strong_induction_on with
  | _ n ih =>
    rw [beBytes, byteLen]
    by_cases h : n = 0
    · simp [h]
    · rw [if_neg h, if_neg h, List.length_append]
      rw [ih (n / 256) (Nat.div_lt_self (Nat.pos_of_ne_zero h) (by decide))]
      simp

theorem beValue_append_singleton (xs : List Nat) (y : Nat) :
    beValue (xs ++ [y]) = beValue xs * 256 + y := by
  simp [beValue, List.foldl_append]

theorem beValue_beBytes (n : Nat) : beValue (beBytes n) = n := by
  induction n using Nat.strong_induction_on with
  | _ n ih =>
    rw [beBytes]
    by_cases h : n = 0
    · simp [h, beValue]
    · rw [if_neg h, beValue_append_singleton]
      rw [ih (n / 256) (Nat.div_lt_self (Nat.pos_of_ne_zero h) (by decide))]
      omega

theorem beBytes_head_ne_zero {n : Nat} (h : 0 < n) :
    ∃ c cs, beBytes n = c :: cs ∧ c ≠ 0 := by
  induction n using Nat.strong_induction_on with
  | _ n ih =>
    rw [beBytes, if_neg (Nat.pos_iff_ne_zero.mp h)]
    by_cases hq : n / 256 = 0
    · have hlt : n < 256 := (Nat.div_eq_zero_iff (by decide)).mp hq
      refine ⟨n % 256, [], ?_, ?_⟩
      · rw [hq]
        simp [beBytes]
      · have : n % 256 = n := Nat.mod_eq_of_lt hlt
        omega
    · obtain ⟨c, cs, hc, hcne⟩ :=
        ih (n / 256) (Nat.div_lt_self h (by decide)) (Nat.pos_of_ne_zero hq)
      exact ⟨c, cs ++ [n % 256], by rw [hc]; simp, hcne⟩

theorem Header.encode_length (l : Bool) (p : Nat) :
    (Header.encode ⟨l, p⟩).length = length_of_length p := by
  unfold Header.encode length_of_length
  by_cases h : p < 56
  · simp [h]
  · simp [h, beBytes_length]
    omega

/-- Unfolding lemma for decoding a nonempty buffer. -/
theorem Header.decode_cons (b : Nat) (rest : List Nat) :
    Header.decode (b :: rest) =
      (if b ≤ 0x7F then some ⟨false, 1⟩
       else if b ≤ 0xB7 then
         let p := b - 0x80
         if p = 1 then
           match rest with
           | [] => none
           | nb :: _ =>
             if nb < 0x80 then none
             else if rest.length < p then none else some ⟨false, p⟩
         else if rest.length < p then none else some ⟨false, p⟩
       else if b ≤ 0xBF then decodeLong false (b - 0xB7) rest
       else if b ≤ 0xF7 then
         let p := b - 0xC0
         if rest.length < p then none else some ⟨true, p⟩
       else decodeLong true (b - 0xF7) rest) := rfl

/-- Round trip: decoding a canonically encoded list header followed by
at least `p` bytes of payload recovers the header. -/
theorem Header.decode_encode (p : Nat) (payload : List Nat) (hp : p ≤ payload.length) :
    Header.decode (Header.encode ⟨true, p⟩ ++ payload) = some ⟨true, p⟩ := by
  by_cases h : p < 56
  · have henc : Header.encode ⟨true, p⟩ = [0xC0 + p] := by
      unfold Header.encode
      simp [h]
    rw [henc, List.cons_append, Header.decode_cons]
    have h1 : ¬ (0xC0 + p ≤ 0x7F) := by omega
    have h2 : ¬ (0xC0 + p ≤ 0xB7) := by omega
    have h3 : ¬ (0xC0 + p ≤ 0xBF) := by omega
    have h4 : 0xC0 + p ≤ 0xF7 := by omega
    rw [if_neg h1, if_neg h2, if_neg h3, if_pos h4]
    have h5 : 0xC0 + p - 0xC0 = p := by omega
    simp only [h5, List.nil_append]
    rw [if_neg (by omega : ¬ (payload.length < p))]
  · have hpos : 0 < p := by omega
    have hL : 0 < byteLen p := byteLen_pos hpos
    have henc : Header.encode ⟨true, p⟩ = (0xF7 + byteLen p) :: beBytes p := by
      unfold Header.encode
      simp [h]
    rw [henc, List.cons_append, Header.decode_cons]
    have h1 : ¬ (0xF7 + byteLen p ≤ 0x7F) := by omega
    have h2 : ¬ (0xF7 + byteLen p ≤ 0xB7) := by omega
    have h3 : ¬ (0xF7 + byteLen p ≤ 0xBF) := by omega
    have h4 : ¬ (0xF7 + byteLen p ≤ 0xF7) := by omega
    rw [if_neg h1, if_neg h2, if_neg h3, if_neg h4]
    have hll : 0xF7 + byteLen p - 0xF7 = byteLen p := by omega
    rw [hll]
    unfold decodeLong
    have hlen : (beBytes p ++ payload).length = byteLen p + payload.length := by
      simp [beBytes_length]
    rw [if_neg (by omega : ¬ ((beBytes p ++ payload).length < byteLen p))]
    have htake : (beBytes p ++ payload).take (byteLen p) = beBytes p := by
      have := List.take_left (beBytes p) payload
      rwa [beBytes_length] at this
    have hdrop : (beBytes p ++ payload).drop (byteLen p) = payload := by
      have := List.drop_left (beBytes p) payload
      rwa [beBytes_length] at this
    rw [htake, hdrop]
    obtain ⟨c, cs, hc, hcne⟩ := beBytes_head_ne_zero hpos
    rw [hc]
    have hval : beValue (c :: cs) = p := by rw [← hc, beValue_beBytes]
    simp only [hcne, if_neg, if_false, hval]
    rw [if_neg h, if_neg (by omega : ¬ (payload.length < p))]

/-!
The transaction container of `mod.rs`.  `TxSignature` and the essence
variants live in sibling modules and are consumed here only through
their capability surface: the bytes their encoders append, their
reported RLP payload lengths, the essence's type tag, and the
essence's recovery function.  We embed each collaborator as a record
of those outputs; the container code is translated verbatim against
that surface.
-/

/-- The signature collaborator: the `v`/`r`/`s` components together
with the bytes its own RLP list encoder produces and its reported
payload length. -/
structure TxSignature where
  v : Nat
  r : Nat
  s : Nat
  encoding : List Nat
  payload_length : Nat

/-- The essence collaborator (the `TxEssence` trait object): its
EIP-2718 type tag, the bytes its own RLP list encoder produces, its
reported payload length, and its recovery capability.  Recovery
returns a typed result (`Except`), never a panic. -/
structure TxEssence where
  tx_type : Nat
  encoding : List Nat
  payload_length : Nat
  recover_from : TxSignature → Except String Nat

/-- Modelled from the spec: `OPTIMISM_DEPOSITED_TX_TYPE`, the reserved
deposit-style signature-less type tag.  The `optimism` sibling module
defining it is out of scope; per the wire format of the spec the tag
is a nonzero type byte (deposit encodings carry a type prefix while
tag 0 denotes legacy). -/
def OPTIMISM_DEPOSITED_TX_TYPE : Nat := 0x7E

/-- `Transaction`: the container pairing an essence with a signature. -/
structure Transaction where
  essence : TxEssence
  signature : TxSignature

/-- `rlp_join_lists`: joins two RLP-encoded lists into a single
RLP-encoded list appended to `out`.  `a_buf` and `b_buf` are the
buffers produced by encoding the two arguments.  The result pairs the
final buffer contents with a panic flag: `true` models the `unwrap`
panic when a header fails to decode and the explicit panic when a
header is not a list, with the first component holding the buffer
contents at the moment of the panic. -/
def rlp_join_lists (a_buf b_buf out : List Nat) : List Nat × Bool :=
  match Header.decode a_buf with
  | none => (out, true)
  | some ha =>
    if ha.list = false then (out, true)
    else
      let a_head_length := ha.length
      let a_payload_length := a_buf.length - a_head_length
      match Header.decode b_buf with
      | none => (out, true)
      | some hb =>
        if hb.list = false then (out, true)
        else
          let b_head_length := hb.length
          let b_payload_length := b_buf.length - b_head_length
          (out ++ (Header.mk true (a_payload_length + b_payload_length)).encode
               ++ a_buf.drop a_head_length ++ b_buf.drop b_head_length,
           false)

/-- `Transaction::encode` (the `Encodable` impl): prepend the EIP-2718
type byte for non-legacy transactions; deposited transactions encode
the essence alone and return; otherwise the essence list and the
signature list are joined into one.  Returns the final buffer
contents and the panic flag propagated from `rlp_join_lists`. -/
def Transaction.encode (tx : Transaction) (out : List Nat) : List Nat × Bool :=
  let tx_type := tx.essence.tx_type
  let out := if tx_type ≠ 0 then out ++ [tx_type] else out
  if tx_type = OPTIMISM_DEPOSITED_TX_TYPE then
    (out ++ tx.essence.encoding, false)
  else
    rlp_join_lists tx.essence.encoding tx.signature.encoding out

/-- `Transaction::length` (the `Encodable` impl): the payload length
is the essence's alone for deposited transactions and the sum of the
essence's and the signature's otherwise; the total adds the length of
the length prefix and one byte for a nonzero type tag. -/
def Transaction.length (tx : Transaction) : Nat :=
  let tx_type := tx.essence.tx_type
  let payload_length :=
    if tx_type = OPTIMISM_DEPOSITED_TX_TYPE then
      tx.essence.payload_length
    else
      tx.essence.payload_length + tx.signature.payload_length
  let length := payload_length + length_of_length payload_length
  if tx_type ≠ 0 then length + 1 else length

/-- `Transaction::hash`: the keccak digest of the bytes that
`alloy_rlp::encode` produces into a fresh buffer.  The keccak
primitive is an external collaborator (modelled from the spec as an
arbitrary function parameter); a panic during encoding propagates,
modelled as `none`. -/
def Transaction.hash (keccak : List Nat → List Nat) (tx : Transaction) :
    Option (List Nat) :=
  let buf := Transaction.encode tx []
  if buf.2 then none else some (keccak buf.1)

/-- `Transaction::recover_from`: delegates to the essence's recovery
capability applied to the container's signature. -/
def Transaction.recover_from (tx : Transaction) : Except String Nat :=
  tx.essence.recover_from tx.signature

/-- The essence collaborator meets its contract: its encoder produces
its own standalone RLP list encoding (canonical list header followed
by the payload) and its reported `payload_length` equals the payload
byte count of that encoding. -/
def essenceContract (e : TxEssence) : Prop :=
  ∃ payload : List Nat,
    payload.length = e.payload_length ∧
    e.encoding = Header.encode ⟨true, e.payload_length⟩ ++ payload

/-- The signature collaborator meets the same contract. -/
def signatureContract (sig : TxSignature) : Prop :=
  ∃ payload : List Nat,
    payload.length = sig.payload_length ∧
    sig.encoding = Header.encode ⟨true, sig.payload_length⟩ ++ payload

/-- A buffer is a valid standalone RLP list encoding: its header
decodes as a list and the buffer consists of exactly that header
followed by the declared number of payload bytes. -/
def isStandaloneRlpList (buf : List Nat) : Prop :=
  ∃ h : Header, Header.decode buf = some h ∧ h.list = true ∧
    buf.length = h.length + h.payload_length

/-- Whether a buffer's RLP header decodes successfully and indicates a
list — exactly the condition `rlp_join_lists` checks before writing. -/
def decodesAsList (buf : List Nat) : Bool :=
  match Header.decode buf with
  | some h => h.list
  | none => false

/-- Splicing two canonically framed lists: the exact output bytes. -/
theorem rlp_join_lists_of_lists (pa pb out : List Nat) :
    rlp_join_lists (Header.encode ⟨true, pa.length⟩ ++ pa)
        (Header.encode ⟨true, pb.length⟩ ++ pb) out
    = (out ++ Header.encode ⟨true, pa.length + pb.length⟩ ++ pa ++ pb, false) := by
  have hlenA : (Header.encode ⟨true, pa.length⟩ ++ pa).length
      = length_of_length pa.length + pa.length := by
    rw [List.length_append, Header.encode_length]
  have hlenB : (Header.encode ⟨true, pb.length⟩ ++ pb).length
      = length_of_length pb.length + pb.length := by
    rw [List.length_append, Header.encode_length]
  have hdropA : (Header.encode ⟨true, pa.length⟩ ++ pa).drop (length_of_length pa.length)
      = pa := by
    rw [← Header.encode_length true pa.length]
    exact List.drop_left _ _
  have hdropB : (Header.encode ⟨true, pb.length⟩ ++ pb).drop (length_of_length pb.length)
      = pb := by
    rw [← Header.encode_length true pb.length]
    exact List.drop_left _ _
  unfold rlp_join_lists
  rw [Header.decode_encode pa.length pa (Nat.le_refl _),
      Header.decode_encode pb.length pb (Nat.le_refl _)]
  simp only [Header.length, hlenA, hlenB, Nat.add_sub_cancel_left, hdropA, hdropB,
    List.append_assoc]
  simp [hdropA, hdropB, Nat.add_sub_cancel_left, hlenA, hlenB]

/-- C2: splicing two valid standalone RLP list encodings appends one
RLP list whose canonical header declares the sum of the two payload
lengths, followed by the first list's payload bytes and then the
second's, copied verbatim; the appended bytes form a valid standalone
list and their count is the header length for the summed payload plus
the two payload lengths. -/
theorem rlp_join_lists_splice_correct (pa pb out : List Nat) :
    rlp_join_lists (Header.encode ⟨true, pa.length⟩ ++ pa)
        (Header.encode ⟨true, pb.length⟩ ++ pb) out
      = (out ++ (Header.encode ⟨true, pa.length + pb.length⟩ ++ (pa ++ pb)), false) ∧
    Header.decode (Header.encode ⟨true, pa.length + pb.length⟩ ++ (pa ++ pb))
      = some ⟨true, pa.length + pb.length⟩ ∧
    (Header.encode ⟨true, pa.length + pb.length⟩ ++ (pa ++ pb)).length
      = length_of_length (pa.length + pb.length) + (pa.length + pb.length) := by
  refine ⟨?_, ?_, ?_⟩
  · rw [rlp_join_lists_of_lists]
    simp [List.append_assoc]
  · exact Header.decode_encode _ _ (by simp)
  · rw [List.length_append, Header.encode_length, List.length_append]

/-- The deposited type tag is a nonzero type byte. -/
theorem deposited_tx_type_ne_zero : OPTIMISM_DEPOSITED_TX_TYPE ≠ 0 := by decide

/-- Encoding a deposited transaction: the type byte followed by the
essence's own encoding, no panic, signature untouched. -/
theorem encode_eq_deposit (tx : Transaction) (out : List Nat)
    (hd : tx.essence.tx_type = OPTIMISM_DEPOSITED_TX_TYPE) :
    Transaction.encode tx out
      = (out ++ tx.essence.tx_type :: tx.essence.encoding, false) := by
  have ht : ¬ tx.essence.tx_type = 0 := by
    rw [hd]
    exact deposited_tx_type_ne_zero
  simp only [Transaction.encode]
  rw [if_pos hd, if_pos (show tx.essence.tx_type ≠ 0 from ht)]
  simp

/-- Encoding a non-deposited transaction whose collaborators produce
canonically framed lists: the optional type byte, then the spliced
list. -/
theorem encode_eq_join (tx : Transaction) (out : List Nat)
    (hd : tx.essence.tx_type ≠ OPTIMISM_DEPOSITED_TX_TYPE)
    (pe ps : List Nat)
    (hee : tx.essence.encoding = Header.encode ⟨true, pe.length⟩ ++ pe)
    (hse : tx.signature.encoding = Header.encode ⟨true, ps.length⟩ ++ ps) :
    Transaction.encode tx out
      = ((if tx.essence.tx_type ≠ 0 then out ++ [tx.essence.tx_type] else out)
          ++ (Header.encode ⟨true, pe.length + ps.length⟩ ++ (pe ++ ps)), false) := by
  simp only [Transaction.encode]
  rw [if_neg hd, hee, hse, rlp_join_lists_of_lists]
  simp [List.append_assoc]

/-- C1: for every transaction whose essence and signature
collaborators meet their contract, the length computation equals the
number of bytes the encoder appends to the output buffer, and the
encoder does not panic. -/
theorem transaction_length_eq_encode_count (tx : Transaction) (out : List Nat)
    (he : essenceContract tx.essence) (hs : signatureContract tx.signature) :
    ∃ bytes : List Nat,
      Transaction.encode tx out = (out ++ bytes, false) ∧
      bytes.length = Transaction.length tx := by
  obtain ⟨pe, hpe, hee⟩ := he
  obtain ⟨ps, hps, hse⟩ := hs
  rw [← hpe] at hee
  rw [← hps] at hse
  by_cases hd : tx.essence.tx_type = OPTIMISM_DEPOSITED_TX_TYPE
  · have ht : ¬ tx.essence.tx_type = 0 := by
      rw [hd]
      exact deposited_tx_type_ne_zero
    refine ⟨tx.essence.tx_type :: tx.essence.encoding, encode_eq_deposit tx out hd, ?_⟩
    simp only [Transaction.length]
    rw [if_pos hd, if_pos (by exact ht)]
    rw [hee, List.length_cons, List.length_append, Header.encode_length, hpe]
    omega
  · by_cases ht : tx.essence.tx_type = 0
    · refine ⟨Header.encode ⟨true, pe.length + ps.length⟩ ++ (pe ++ ps), ?_, ?_⟩
      · rw [encode_eq_join tx out hd pe ps hee hse]
        simp [ht]
      · simp only [Transaction.length]
        rw [if_neg hd, if_neg (by simp [ht])]
        rw [List.length_append, Header.encode_length, List.length_append, hpe, hps]
        omega
    · refine ⟨tx.essence.tx_type
          :: (Header.encode ⟨true, pe.length + ps.length⟩ ++ (pe ++ ps)), ?_, ?_⟩
      · rw [encode_eq_join tx out hd pe ps hee hse]
        simp [ht]
      · simp only [Transaction.length]
        rw [if_neg hd, if_pos (by exact ht)]
        rw [List.length_cons, List.length_append, Header.encode_length,
          List.length_append, hpe, hps]
        omega

/-- Either the splicer panics before writing anything, or it does not
panic at all: the only two observable outcomes. -/
theorem rlp_join_lists_panic_cases (a b out : List Nat) :
    rlp_join_lists a b out = (out, true) ∨ (rlp_join_lists a b out).2 = false := by
  unfold rlp_join_lists
  cases Header.decode a with
  | none => exact Or.inl rfl
  | some ha =>
    dsimp only
    by_cases hla : ha.list = false
    · rw [if_pos hla]
      exact Or.inl rfl
    · rw [if_neg hla]
      cases Header.decode b with
      | none => exact Or.inl rfl
      | some hb =>
        dsimp only
        by_cases hlb : hb.list = false
        · rw [if_pos hlb]
          exact Or.inl rfl
        · rw [if_neg hlb]
          exact Or.inr rfl

/-- The splicer's panic flag is set exactly when one of the two
decoded headers is missing or is not a list header. -/
theorem rlp_join_lists_panics_iff (a b out : List Nat) :
    (rlp_join_lists a b out).2 = (!(decodesAsList a && decodesAsList b)) := by
  unfold rlp_join_lists decodesAsList
  cases Header.decode a with
  | none => rfl
  | some ha =>
    dsimp only
    by_cases hla : ha.list = false
    · rw [if_pos hla, hla]
      rfl
    · rw [if_neg hla]
      have hla' : ha.list = true := by
        cases h : ha.list
        · exact absurd h hla
        · rfl
      rw [hla']
      cases Header.decode b with
      | none => rfl
      | some hb =>
        dsimp only
        by_cases hlb : hb.list = false
        · rw [if_pos hlb, hlb]
          rfl
        · rw [if_neg hlb]
          have hlb' : hb.list = true := by
            cases h : hb.list
            · exact absurd h hlb
            · rfl
          rw [hlb']
          rfl

/-!
Concrete sample collaborators used to instantiate the theorems. -/

/-- A deposited-type essence: tag `0x7E`, encoding the one-element
list with payload byte `9`. -/
def sampleDepositEssence : TxEssence :=
  ⟨OPTIMISM_DEPOSITED_TX_TYPE, [0xC1, 9], 1, fun _ => Except.error "signature-less"⟩

/-- A legacy essence: tag `0`, encoding the list with payload
`[1, 2, 3]`. -/
def sampleLegacyEssence : TxEssence :=
  ⟨0, [0xC3, 1, 2, 3], 3, fun _ => Except.ok 0⟩

/-- A sample signature whose own list encoding has payload `[4, 5]`. -/
def sampleSignature : TxSignature :=
  ⟨38, 2, 3, [0xC2, 4, 5], 2⟩

/-- A second, different sample signature with payload `[6]`. -/
def sampleSignature2 : TxSignature :=
  ⟨39, 7, 8, [0xC1, 6], 1⟩

/-- A sample legacy transaction with well-formed collaborators. -/
def sampleLegacyTransaction : Transaction :=
  ⟨sampleLegacyEssence, sampleSignature⟩

/-- C1 witness at the sample legacy transaction. -/
theorem transaction_length_eq_encode_count_witness :
    ∃ bytes : List Nat,
      Transaction.encode sampleLegacyTransaction [] = ([] ++ bytes, false) ∧
      bytes.length = Transaction.length sampleLegacyTransaction :=
  transaction_length_eq_encode_count sampleLegacyTransaction []
    ⟨[1, 2, 3], by decide, by decide⟩ ⟨[4, 5], by decide, by decide⟩

/-- C3: a legacy transaction's encoding starts directly with the RLP
list header of the combined payload (no type byte); any transaction
with a nonzero type tag encodes its type tag as the first produced
byte. -/
theorem encode_type_prefix_correct (tx : Transaction) (out : List Nat)
    (he : essenceContract tx.essence) (hs : signatureContract tx.signature) :
    (tx.essence.tx_type = 0 →
      ∃ p rest, Transaction.encode tx out
        = (out ++ (Header.encode ⟨true, p⟩ ++ rest), false)) ∧
    (tx.essence.tx_type ≠ 0 →
      ∃ rest, Transaction.encode tx out
        = (out ++ tx.essence.tx_type :: rest, false)) := by
  obtain ⟨pe, hpe, hee⟩ := he
  obtain ⟨ps, hps, hse⟩ := hs
  rw [← hpe] at hee
  rw [← hps] at hse
  constructor
  · intro ht
    have hd : tx.essence.tx_type ≠ OPTIMISM_DEPOSITED_TX_TYPE := by
      rw [ht]
      exact fun h => deposited_tx_type_ne_zero h.symm
    refine ⟨pe.length + ps.length, pe ++ ps, ?_⟩
    rw [encode_eq_join tx out hd pe ps hee hse]
    simp [ht]
  · intro ht
    by_cases hd : tx.essence.tx_type = OPTIMISM_DEPOSITED_TX_TYPE
    · exact ⟨tx.essence.encoding, encode_eq_deposit tx out hd⟩
    · refine ⟨Header.encode ⟨true, pe.length + ps.length⟩ ++ (pe ++ ps), ?_⟩
      rw [encode_eq_join tx out hd pe ps hee hse]
      simp [ht]

/-- C3 witness at the sample legacy transaction. -/
theorem encode_type_prefix_correct_witness :
    (sampleLegacyTransaction.essence.tx_type = 0 →
      ∃ p rest, Transaction.encode sampleLegacyTransaction []
        = ([] ++ (Header.encode ⟨true, p⟩ ++ rest), false)) ∧
    (sampleLegacyTransaction.essence.tx_type ≠ 0 →
      ∃ rest, Transaction.encode sampleLegacyTransaction []
        = ([] ++ sampleLegacyTransaction.essence.tx_type :: rest, false)) :=
  encode_type_prefix_correct sampleLegacyTransaction []
    ⟨[1, 2, 3], by decide, by decide⟩ ⟨[4, 5], by decide, by decide⟩

/-- C4 counterexample: for a deposited transaction the bytes produced
by the encoder are not bit-identical to the essence's standalone list
encoding — the one-byte type prefix precedes it. -/
theorem encode_deposit_not_essence_alone :
    (Transaction.encode ⟨sampleDepositEssence, sampleSignature⟩ []).1
      ≠ sampleDepositEssence.encoding := by
  decide

/-- C4 (amended): for a deposited-type essence the encoder appends the
type byte followed exactly by the essence's own standalone list
encoding; no signature bytes appear, whatever the signature holds. -/
theorem encode_deposit_is_type_byte_then_essence (tx : Transaction) (out : List Nat)
    (hd : tx.essence.tx_type = OPTIMISM_DEPOSITED_TX_TYPE) :
    Transaction.encode tx out
      = (out ++ tx.essence.tx_type :: tx.essence.encoding, false) :=
  encode_eq_deposit tx out hd

/-- C4 witness at the sample deposited transaction. -/
theorem encode_deposit_is_type_byte_then_essence_witness :
    Transaction.encode ⟨sampleDepositEssence, sampleSignature⟩ []
      = ([] ++ sampleDepositEssence.tx_type :: sampleDepositEssence.encoding, false) :=
  encode_deposit_is_type_byte_then_essence ⟨sampleDepositEssence, sampleSignature⟩ [] rfl

/-- C5: for a deposited-type essence, two transactions sharing that
essence but carrying arbitrary, possibly different signatures have
identical encodings, identical lengths, and identical hashes — the
signature field never influences these operations. -/
theorem deposit_signature_never_consulted (e : TxEssence) (s1 s2 : TxSignature)
    (out : List Nat) (keccak : List Nat → List Nat)
    (hd : e.tx_type = OPTIMISM_DEPOSITED_TX_TYPE) :
    Transaction.encode ⟨e, s1⟩ out = Transaction.encode ⟨e, s2⟩ out ∧
    Transaction.length ⟨e, s1⟩ = Transaction.length ⟨e, s2⟩ ∧
    Transaction.hash keccak ⟨e, s1⟩ = Transaction.hash keccak ⟨e, s2⟩ := by
  refine ⟨?_, ?_, ?_⟩
  · rw [encode_eq_deposit ⟨e, s1⟩ out hd, encode_eq_deposit ⟨e, s2⟩ out hd]
  · simp [Transaction.length, hd]
  · simp only [Transaction.hash]
    rw [encode_eq_deposit ⟨e, s1⟩ [] hd, encode_eq_deposit ⟨e, s2⟩ [] hd]

/-- C5 witness: same deposited essence, two different signatures. -/
theorem deposit_signature_never_consulted_witness :
    Transaction.encode ⟨sampleDepositEssence, sampleSignature⟩ []
        = Transaction.encode ⟨sampleDepositEssence, sampleSignature2⟩ [] ∧
    Transaction.length ⟨sampleDepositEssence, sampleSignature⟩
        = Transaction.length ⟨sampleDepositEssence, sampleSignature2⟩ ∧
    Transaction.hash (fun l => l) ⟨sampleDepositEssence, sampleSignature⟩
        = Transaction.hash (fun l => l) ⟨sampleDepositEssence, sampleSignature2⟩ :=
  deposit_signature_never_consulted sampleDepositEssence sampleSignature sampleSignature2
    [] (fun l => l) rfl

/-- Combined payload length as the spec words it: the essence payload
length, plus the signature payload length unless the essence is the
signature-less variant.  Stated from the spec for comparison with the
code's `Transaction::length`. -/
def specCombinedPayloadLength (tx : Transaction) : Nat :=
  if tx.essence.tx_type = OPTIMISM_DEPOSITED_TX_TYPE then
    tx.essence.payload_length
  else
    tx.essence.payload_length + tx.signature.payload_length

/-- C6: the length computation equals the combined payload length,
plus the byte length of the length prefix a canonical header for that
payload occupies, plus one byte exactly when the type tag is
nonzero. -/
theorem transaction_length_formula (tx : Transaction) :
    Transaction.length tx =
      specCombinedPayloadLength tx
        + (Header.encode ⟨true, specCombinedPayloadLength tx⟩).length
        + (if tx.essence.tx_type ≠ 0 then 1 else 0) := by
  simp only [Transaction.length, specCombinedPayloadLength, Header.encode_length]
  by_cases ht : tx.essence.tx_type = 0
  · simp [ht]
  · simp [ht]

/-- C7 counterexample: an input that is not a valid standalone RLP
list (a list header whose frame covers only two of the three bytes, so
a trailing byte dangles) is spliced without any abort. -/
theorem rlp_join_lists_accepts_invalid_input :
    ¬ isStandaloneRlpList [0xC1, 0, 0] ∧
    (rlp_join_lists [0xC1, 0, 0] [0xC0] []).2 = false := by
  constructor
  · rintro ⟨h, hdec, hlist, hlen⟩
    have hd2 : Header.decode [0xC1, 0, 0] = some ⟨true, 1⟩ := by decide
    rw [hd2] at hdec
    injection hdec with hh
    rw [← hh] at hlen
    exact absurd hlen (by decide)
  · decide

/-- C7 (amended): the splicer aborts exactly when one of its inputs
lacks a decodable list header; whenever both inputs decode as list
headers — in particular whenever both are valid standalone RLP lists —
it never aborts.  It does not detect invalidity beyond the header, so
some inputs that are not valid standalone lists pass through. -/
theorem rlp_join_lists_abort_characterization (a b out : List Nat) :
    (rlp_join_lists a b out).2 = (!(decodesAsList a && decodesAsList b)) ∧
    (isStandaloneRlpList a → isStandaloneRlpList b →
      (rlp_join_lists a b out).2 = false) := by
  refine ⟨rlp_join_lists_panics_iff a b out, ?_⟩
  rintro ⟨ha, hdA, hlA, _⟩ ⟨hb, hdB, hlB, _⟩
  rw [rlp_join_lists_panics_iff a b out]
  unfold decodesAsList
  rw [hdA, hdB]
  dsimp only
  rw [hlA, hlB]
  rfl

/-- C7 witness: two concrete valid standalone lists splice without
abort, and the abort flag agrees with the header check. -/
theorem rlp_join_lists_abort_characterization_witness :
    (rlp_join_lists [0xC2, 1, 2] [0xC1, 5] []).2
        = (!(decodesAsList [0xC2, 1, 2] && decodesAsList [0xC1, 5])) ∧
    (rlp_join_lists [0xC2, 1, 2] [0xC1, 5] []).2 = false :=
  ⟨(rlp_join_lists_abort_characterization [0xC2, 1, 2] [0xC1, 5] []).1,
   (rlp_join_lists_abort_characterization [0xC2, 1, 2] [0xC1, 5] []).2
     ⟨⟨true, 2⟩, by decide, rfl, by decide⟩
     ⟨⟨true, 1⟩, by decide, rfl, by decide⟩⟩

/-- C8: sender recovery on the container is exactly the essence's
recovery capability applied to the container's signature — the same
typed result, success or failure, with nothing added by the
container. -/
theorem recover_from_delegates (tx : Transaction) :
    Transaction.recover_from tx = tx.essence.recover_from tx.signature := rfl

/-- C9: when encoding does not panic, the hash is the keccak digest of
the full encoder output; it is a pure function of that output, so any
two transactions with identical encoder results have identical
hashes. -/
theorem hash_is_keccak_of_encode (keccak : List Nat → List Nat) (t1 t2 : Transaction)
    (h : (Transaction.encode t1 []).2 = false) :
    Transaction.hash keccak t1 = some (keccak (Transaction.encode t1 []).1) ∧
    (Transaction.encode t1 [] = Transaction.encode t2 [] →
      Transaction.hash keccak t1 = Transaction.hash keccak t2) := by
  constructor
  · simp only [Transaction.hash]
    rw [h]
    simp
  · intro he
    simp only [Transaction.hash, he]

/-- C9 witness at the sample legacy transaction with the identity
standing in for the external keccak primitive. -/
theorem hash_is_keccak_of_encode_witness :
    Transaction.hash (fun l => l) sampleLegacyTransaction
        = some ((fun l => l) (Transaction.encode sampleLegacyTransaction []).1) ∧
    (Transaction.encode sampleLegacyTransaction []
        = Transaction.encode sampleLegacyTransaction [] →
      Transaction.hash (fun l => l) sampleLegacyTransaction
        = Transaction.hash (fun l => l) sampleLegacyTransaction) :=
  hash_is_keccak_of_encode (fun l => l) sampleLegacyTransaction sampleLegacyTransaction
    (by decide)

/-- C10: whenever the splicer aborts — a header that cannot be decoded
(the unwrap panic) or a header that is not a list — the output buffer
holds exactly what it held before the call; nothing is written before
both headers have been decoded and checked. -/
theorem rlp_join_lists_abort_preserves_output (a b out : List Nat)
    (h : (rlp_join_lists a b out).2 = true) :
    (rlp_join_lists a b out).1 = out := by
  rcases rlp_join_lists_panic_cases a b out with hcase | hcase
  · rw [hcase]
  · rw [hcase] at h
    simp at h

/-- C10 witness: an empty first input panics via the failed header
decode and the output buffer is returned untouched. -/
theorem rlp_join_lists_abort_preserves_output_witness :
    (rlp_join_lists [] [0xC0] [7]).1 = [7] :=
  rlp_join_lists_abort_preserves_output [] [0xC0] [7] (by decide)

end Raiko
